import Mathlib

/-!
Verification of the `pangeo-tutorial` notebooks.

The repository consists of two Jupyter notebooks,
`notebooks/amazon-web-services/cesm-lens.ipynb` and `notebooks/xarray.ipynb`.
This file gives a shallow embedding of the repository-authored functions
(`calc_slope`, `linear_trend`, `weighted_temporal_mean`), of the longitude
remap, of the lazy weighted annual-mean pipeline, and of the notebooks'
interaction traces with the cluster and with external inputs, and proves or
refutes the specification's claims about them.

Conventions: floating-point values are modelled exactly by `ℚ`; a missing
value (NaN) is modelled by `none` in `Option ℚ`; an exception raised by a
library call is modelled by `Except.error`.
-/

namespace PangeoTutorial

/-! ### Series with missing values, and the least-squares machinery behind
`np.polyfit(x, y, 1)` (cesm-lens.ipynb, cell defining `calc_slope`). -/

/-- A 1-D float vector with possible NaNs: `some v` is a finite value,
`none` is NaN. -/
abbrev Series := List (Option ℚ)

/-- The number of finite (non-NaN) entries of `y`: `np.sum(~np.isnan(y))`
in `calc_slope`. -/
def countFinite (y : Series) : ℕ := (y.filter Option.isSome).length

/-- `x[finite_indexes]` paired with `y[finite_indexes]`: the positions and
values of the finite entries of the series, positions counted from `i`.
In `calc_slope`, `x = np.arange(len(y))`, so the top-level call uses `i = 0`. -/
def finitePairs : ℕ → Series → List (ℚ × ℚ)
  | _, [] => []
  | i, none :: rest => finitePairs (i + 1) rest
  | i, some v :: rest => ((i : ℚ), v) :: finitePairs (i + 1) rest

/-- Sum of the x-coordinates of a point list. -/
def sumX (pts : List (ℚ × ℚ)) : ℚ := (pts.map Prod.fst).sum

/-- Sum of the y-coordinates of a point list. -/
def sumY (pts : List (ℚ × ℚ)) : ℚ := (pts.map Prod.snd).sum

/-- Sum of the squared x-coordinates of a point list. -/
def sumXX (pts : List (ℚ × ℚ)) : ℚ := (pts.map fun p => p.1 * p.1).sum

/-- Sum of the products x·y over a point list. -/
def sumXY (pts : List (ℚ × ℚ)) : ℚ := (pts.map fun p => p.1 * p.2).sum

/-- The slope coefficient `np.polyfit(x, y, 1)[0]` of the external library:
the closed form of the unique least-squares solution of a degree-1 fit
(proved to be the minimiser below). -/
def polyfitSlope (pts : List (ℚ × ℚ)) : ℚ :=
  ((pts.length : ℚ) * sumXY pts - sumX pts * sumY pts) /
    ((pts.length : ℚ) * sumXX pts - sumX pts * sumX pts)

/-- The intercept coefficient `np.polyfit(x, y, 1)[1]` of the external
library. -/
def polyfitIntercept (pts : List (ℚ × ℚ)) : ℚ :=
  (sumY pts - polyfitSlope pts * sumX pts) / (pts.length : ℚ)

/-- `calc_slope` from cesm-lens.ipynb: drop the NaN entries of `y`; if fewer
than two finite entries remain, return NaN, otherwise return the degree-1
least-squares slope of the finite values against their positions. -/
def calc_slope (y : Series) : Option ℚ :=
  if countFinite y < 2 then none
  else some (polyfitSlope (finitePairs 0 y))

/-- `linear_trend` from cesm-lens.ipynb: `xr.apply_ufunc(calc_slope, …,
vectorize=True, input_core_dims=[[dim]])` applies `calc_slope` to each
series of the grid along the core dimension. -/
def linear_trend (grid : List Series) : List (Option ℚ) := grid.map calc_slope

/-- Residual sum of squares of the line `x ↦ a * x + b` on the point list. -/
def rss (pts : List (ℚ × ℚ)) (a b : ℚ) : ℚ :=
  (pts.map fun p => (p.2 - (a * p.1 + b)) ^ 2).sum

/-- `(a, b)` is a degree-1 least-squares fit of the point list: no line has a
smaller residual sum of squares. -/
def IsLeastSquaresFit (pts : List (ℚ × ℚ)) (a b : ℚ) : Prop :=
  ∀ a2 b2, rss pts a b ≤ rss pts a2 b2

/-- The discriminant `n·Σx² − (Σx)²` of the normal equations, as a function
of the x-coordinates alone. -/
def xDisc (xs : List ℚ) : ℚ :=
  (xs.length : ℚ) * (xs.map fun x => x * x).sum - xs.sum * xs.sum

lemma countFinite_nil : countFinite [] = 0 := rfl

lemma countFinite_cons_none (rest : Series) :
    countFinite (none :: rest) = countFinite rest := by
  simp [countFinite]

lemma countFinite_cons_some (v : ℚ) (rest : Series) :
    countFinite (some v :: rest) = countFinite rest + 1 := by
  simp [countFinite, List.filter]

lemma length_finitePairs (i : ℕ) (y : Series) :
    (finitePairs i y).length = countFinite y := by
  induction y generalizing i with
  | nil => rfl
  | cons o rest ih =>
    cases o with
    | none => simpa [finitePairs, countFinite_cons_none] using ih (i + 1)
    | some v => simpa [finitePairs, countFinite_cons_some] using ih (i + 1)

lemma finitePairs_fst_le (i : ℕ) (y : Series) :
    ∀ p ∈ finitePairs i y, (i : ℚ) ≤ p.1 := by
  induction y generalizing i with
  | nil => intro p hp; simp [finitePairs] at hp
  | cons o rest ih =>
    cases o with
    | none =>
      intro p hp
      have h := ih (i + 1) p (by simpa [finitePairs] using hp)
      have : (i : ℚ) ≤ ((i + 1 : ℕ) : ℚ) := by push_cast; linarith
      linarith
    | some v =>
      intro p hp
      rcases (by simpa [finitePairs] using hp :
          p = ((i : ℚ), v) ∨ p ∈ finitePairs (i + 1) rest) with h | h
      · simp [h]
      · have h2 := ih (i + 1) p h
        have : (i : ℚ) ≤ ((i + 1 : ℕ) : ℚ) := by push_cast; linarith
        linarith

lemma finitePairs_pairwise (i : ℕ) (y : Series) :
    (finitePairs i y).Pairwise (fun p q => p.1 < q.1) := by
  induction y generalizing i with
  | nil => simp [finitePairs]
  | cons o rest ih =>
    cases o with
    | none => simpa [finitePairs] using ih (i + 1)
    | some v =>
      refine List.Pairwise.cons ?_ (ih (i + 1))
      intro q hq
      have h := finitePairs_fst_le (i + 1) rest q hq
      have : (i : ℚ) < ((i + 1 : ℕ) : ℚ) := by push_cast; linarith
      simpa using lt_of_lt_of_le this h

lemma sum_map_sq_sub (x : ℚ) (xs : List ℚ) :
    (xs.map fun q => (x - q) ^ 2).sum =
      (xs.length : ℚ) * x ^ 2 - 2 * x * xs.sum + (xs.map fun q => q * q).sum := by
  induction xs with
  | nil => simp
  | cons q rest ih =>
    simp only [List.map_cons, List.sum_cons, List.length_cons, ih]
    push_cast
    ring

lemma xDisc_nil : xDisc [] = 0 := by simp [xDisc]

lemma xDisc_cons (x : ℚ) (xs : List ℚ) :
    xDisc (x :: xs) = xDisc xs + (xs.map fun q => (x - q) ^ 2).sum := by
  simp only [xDisc, List.map_cons, List.sum_cons, List.length_cons, sum_map_sq_sub]
  push_cast
  ring

lemma xDisc_nonneg (xs : List ℚ) : 0 ≤ xDisc xs := by
  induction xs with
  | nil => simp [xDisc_nil]
  | cons x rest ih =>
    have hsq : 0 ≤ (rest.map fun q => (x - q) ^ 2).sum :=
      List.sum_nonneg (by
        intro t ht
        rcases List.mem_map.1 ht with ⟨q, _, rfl⟩
        positivity)
    rw [xDisc_cons]
    linarith

lemma xDisc_pos (x : ℚ) (xs : List ℚ) (q : ℚ) (hq : q ∈ xs) (hne : x ≠ q) :
    0 < xDisc (x :: xs) := by
  have hmem : (x - q) ^ 2 ∈ xs.map fun r => (x - r) ^ 2 :=
    List.mem_map_of_mem _ hq
  have hterm : (0 : ℚ) < (x - q) ^ 2 := by
    have : x - q ≠ 0 := sub_ne_zero.2 hne
    positivity
  have hle : (x - q) ^ 2 ≤ (xs.map fun r => (x - r) ^ 2).sum :=
    List.single_le_sum (by
      intro t ht
      rcases List.mem_map.1 ht with ⟨r, _, rfl⟩
      positivity) _ hmem
  rw [xDisc_cons]
  have := xDisc_nonneg xs
  linarith

lemma xDisc_map_fst (pts : List (ℚ × ℚ)) :
    xDisc (pts.map Prod.fst) =
      (pts.length : ℚ) * sumXX pts - sumX pts * sumX pts := by
  simp only [xDisc, sumXX, sumX, List.length_map, List.map_map]
  rfl

lemma sumX_cons (p : ℚ × ℚ) (pts : List (ℚ × ℚ)) :
    sumX (p :: pts) = p.1 + sumX pts := by simp [sumX]

lemma sumY_cons (p : ℚ × ℚ) (pts : List (ℚ × ℚ)) :
    sumY (p :: pts) = p.2 + sumY pts := by simp [sumY]

lemma sumXX_cons (p : ℚ × ℚ) (pts : List (ℚ × ℚ)) :
    sumXX (p :: pts) = p.1 * p.1 + sumXX pts := by simp [sumXX]

lemma sumXY_cons (p : ℚ × ℚ) (pts : List (ℚ × ℚ)) :
    sumXY (p :: pts) = p.1 * p.2 + sumXY pts := by simp [sumXY]

lemma rss_cons (p : ℚ × ℚ) (pts : List (ℚ × ℚ)) (a b : ℚ) :
    rss (p :: pts) a b = (p.2 - (a * p.1 + b)) ^ 2 + rss pts a b := by
  simp [rss]

/-- Sum of the residuals of the line `(a, b)`, in terms of the moment sums. -/
lemma sum_residuals (pts : List (ℚ × ℚ)) (a b : ℚ) :
    (pts.map fun p => p.2 - (a * p.1 + b)).sum =
      sumY pts - a * sumX pts - (pts.length : ℚ) * b := by
  induction pts with
  | nil => simp [sumY, sumX]
  | cons p rest ih =>
    simp only [List.map_cons, List.sum_cons, List.length_cons, ih,
      sumY_cons, sumX_cons]
    push_cast
    ring

/-- Sum of x-weighted residuals of the line `(a, b)`, in terms of the moment
sums. -/
lemma sum_x_residuals (pts : List (ℚ × ℚ)) (a b : ℚ) :
    (pts.map fun p => p.1 * (p.2 - (a * p.1 + b))).sum =
      sumXY pts - a * sumXX pts - b * sumX pts := by
  induction pts with
  | nil => simp [sumXY, sumXX, sumX]
  | cons p rest ih =>
    simp only [List.map_cons, List.sum_cons, ih, sumXY_cons, sumXX_cons,
      sumX_cons]
    ring

/-- First normal equation: the residuals of the polyfit line sum to zero. -/
lemma normalEq1 (pts : List (ℚ × ℚ)) (hn : (pts.length : ℚ) ≠ 0) :
    sumY pts - polyfitSlope pts * sumX pts -
      (pts.length : ℚ) * polyfitIntercept pts = 0 := by
  rw [polyfitIntercept]
  field_simp

/-- Second normal equation: the x-weighted residuals of the polyfit line sum
to zero. -/
lemma normalEq2 (pts : List (ℚ × ℚ)) (hn : (pts.length : ℚ) ≠ 0)
    (hD : (pts.length : ℚ) * sumXX pts - sumX pts * sumX pts ≠ 0) :
    sumXY pts - polyfitSlope pts * sumXX pts -
      polyfitIntercept pts * sumX pts = 0 := by
  rw [polyfitIntercept, polyfitSlope]
  field_simp
  ring

/-- Decomposition of the residual sum of squares of an arbitrary line around
the line `(a, b)`. -/
lemma rss_decomp (pts : List (ℚ × ℚ)) (a b a2 b2 : ℚ) :
    rss pts a2 b2 = rss pts a b
      + (pts.map fun p => ((a - a2) * p.1 + (b - b2)) ^ 2).sum
      + 2 * ((a - a2) * (pts.map fun p => p.1 * (p.2 - (a * p.1 + b))).sum
             + (b - b2) * (pts.map fun p => p.2 - (a * p.1 + b)).sum) := by
  induction pts with
  | nil => simp [rss]
  | cons p rest ih =>
    simp only [rss_cons, List.map_cons, List.sum_cons]
    rw [show rss rest a2 b2 =
        rss rest a b + (rest.map fun p => ((a - a2) * p.1 + (b - b2)) ^ 2).sum
        + 2 * ((a - a2) * (rest.map fun p => p.1 * (p.2 - (a * p.1 + b))).sum
           + (b - b2) * (rest.map fun p => p.2 - (a * p.1 + b)).sum) from ih]
    ring

/-- The polyfit line is a least-squares fit whenever the discriminant of the
normal equations is nonzero. -/
lemma polyfit_minimizes (pts : List (ℚ × ℚ)) (hn : (pts.length : ℚ) ≠ 0)
    (hD : (pts.length : ℚ) * sumXX pts - sumX pts * sumX pts ≠ 0) :
    IsLeastSquaresFit pts (polyfitSlope pts) (polyfitIntercept pts) := by
  intro a2 b2
  have hdec := rss_decomp pts (polyfitSlope pts) (polyfitIntercept pts) a2 b2
  rw [sum_residuals, sum_x_residuals, normalEq1 pts hn, normalEq2 pts hn hD]
    at hdec
  have hsq : 0 ≤ (pts.map fun p =>
      ((polyfitSlope pts - a2) * p.1 + (polyfitIntercept pts - b2)) ^ 2).sum :=
    List.sum_nonneg (by
      intro t ht
      rcases List.mem_map.1 ht with ⟨p, _, rfl⟩
      positivity)
  linarith [hdec]

/-- When the point list contains two points with distinct x-coordinates, any
least-squares fit has the polyfit slope. -/
lemma slope_unique (pts : List (ℚ × ℚ)) (hn : (pts.length : ℚ) ≠ 0)
    (hD : (pts.length : ℚ) * sumXX pts - sumX pts * sumX pts ≠ 0)
    (p q : ℚ × ℚ) (hp : p ∈ pts) (hq : q ∈ pts) (hpq : p.1 ≠ q.1)
    (a2 b2 : ℚ) (hmin : IsLeastSquaresFit pts a2 b2) :
    a2 = polyfitSlope pts := by
  have hdec := rss_decomp pts (polyfitSlope pts) (polyfitIntercept pts) a2 b2
  rw [sum_residuals, sum_x_residuals, normalEq1 pts hn,
    normalEq2 pts hn hD] at hdec
  generalize ha : polyfitSlope pts = a at hdec ⊢
  generalize hb : polyfitIntercept pts = b at hdec
  have hle : rss pts a2 b2 ≤ rss pts a b := hmin a b
  have hnonneg : ∀ t ∈ pts.map fun r => ((a - a2) * r.1 + (b - b2)) ^ 2,
      0 ≤ t := by
    intro t ht
    rcases List.mem_map.1 ht with ⟨r, _, rfl⟩
    positivity
  have hsum0 : (pts.map fun r => ((a - a2) * r.1 + (b - b2)) ^ 2).sum = 0 := by
    have hge : 0 ≤ (pts.map fun r => ((a - a2) * r.1 + (b - b2)) ^ 2).sum :=
      List.sum_nonneg hnonneg
    linarith [hdec]
  have hterm0 : ∀ r ∈ pts, ((a - a2) * r.1 + (b - b2)) ^ 2 = 0 := by
    intro r hr
    have hmem : ((a - a2) * r.1 + (b - b2)) ^ 2 ∈
        pts.map fun s => ((a - a2) * s.1 + (b - b2)) ^ 2 :=
      List.mem_map_of_mem _ hr
    have hle2 := List.single_le_sum hnonneg _ hmem
    have hge2 : 0 ≤ ((a - a2) * r.1 + (b - b2)) ^ 2 := by positivity
    rw [hsum0] at hle2
    linarith
  have hp0 : (a - a2) * p.1 + (b - b2) = 0 := by
    have := hterm0 p hp
    exact pow_eq_zero_iff (n := 2) (by norm_num) |>.1 this
  have hq0 : (a - a2) * q.1 + (b - b2) = 0 := by
    have := hterm0 q hq
    exact pow_eq_zero_iff (n := 2) (by norm_num) |>.1 this
  have hdiff : (a - a2) * (p.1 - q.1) = 0 := by linarith [hp0, hq0]
  rcases mul_eq_zero.1 hdiff with h | h
  · linarith [h]
  · exact absurd (sub_eq_zero.1 h) hpq

lemma exists_cons_cons_of_two_le {α : Type} (l : List α) (h : 2 ≤ l.length) :
    ∃ a b rest, l = a :: b :: rest := by
  rcases l with _ | ⟨a, _ | ⟨b, rest⟩⟩
  · simp at h
  · simp at h
  · exact ⟨a, b, rest, rfl⟩

lemma finitePairs_disc_pos (y : Series) (h2 : 2 ≤ countFinite y) :
    0 < ((finitePairs 0 y).length : ℚ) * sumXX (finitePairs 0 y) -
      sumX (finitePairs 0 y) * sumX (finitePairs 0 y) := by
  rw [← xDisc_map_fst]
  have hlen : 2 ≤ (finitePairs 0 y).length := by
    rw [length_finitePairs]; exact h2
  obtain ⟨p, q, rest, hval⟩ := exists_cons_cons_of_two_le _ hlen
  have hpw := finitePairs_pairwise 0 y
  rw [hval] at hpw ⊢
  have hlt : p.1 < q.1 := (List.pairwise_cons.1 hpw).1 q (by simp)
  simp only [List.map_cons]
  exact xDisc_pos p.1 (q.1 :: rest.map Prod.fst) q.1 (by simp) (ne_of_lt hlt)

/-- Claim C4: `calc_slope` returns NaN when fewer than two finite entries are
present, and otherwise returns the (unique) slope coefficient of the degree-1
least-squares fit of the finite entries against their integer positions; being
a total function, it raises no exception on any input. -/
theorem calc_slope_spec (y : Series) :
    (countFinite y < 2 → calc_slope y = none) ∧
    (2 ≤ countFinite y → ∃ s b, calc_slope y = some s ∧
      IsLeastSquaresFit (finitePairs 0 y) s b ∧
      ∀ s2 b2, IsLeastSquaresFit (finitePairs 0 y) s2 b2 → s2 = s) := by
  constructor
  · intro h
    simp [calc_slope, h]
  · intro h2
    have hnotlt : ¬ countFinite y < 2 := not_lt.2 h2
    have hcs : calc_slope y = some (polyfitSlope (finitePairs 0 y)) := by
      simp [calc_slope, hnotlt]
    have hlen : 2 ≤ (finitePairs 0 y).length := by
      rw [length_finitePairs]; exact h2
    have hposn : (0 : ℚ) < ((finitePairs 0 y).length : ℚ) := by
      have : 0 < (finitePairs 0 y).length := lt_of_lt_of_le (by norm_num) hlen
      exact_mod_cast this
    have hn : ((finitePairs 0 y).length : ℚ) ≠ 0 := ne_of_gt hposn
    have hD : ((finitePairs 0 y).length : ℚ) * sumXX (finitePairs 0 y) -
        sumX (finitePairs 0 y) * sumX (finitePairs 0 y) ≠ 0 :=
      ne_of_gt (finitePairs_disc_pos y h2)
    obtain ⟨p, q, rest, hval⟩ := exists_cons_cons_of_two_le _ hlen
    have hpw := finitePairs_pairwise 0 y
    have hlt : p.1 < q.1 := by
      rw [hval] at hpw
      exact (List.pairwise_cons.1 hpw).1 q (by simp)
    have hp : p ∈ finitePairs 0 y := by rw [hval]; simp
    have hq : q ∈ finitePairs 0 y := by rw [hval]; simp
    exact ⟨polyfitSlope (finitePairs 0 y), polyfitIntercept (finitePairs 0 y),
      hcs, polyfit_minimizes _ hn hD,
      fun s2 b2 hmin =>
        slope_unique _ hn hD p q hp hq (ne_of_lt hlt) s2 b2 hmin⟩

/-- Witness for C4 at the series `[0, 2, 8]` (all entries finite). -/
theorem calc_slope_spec_witness :
    ∃ s b, calc_slope [some 0, some 2, some 8] = some s ∧
      IsLeastSquaresFit (finitePairs 0 [some 0, some 2, some 8]) s b ∧
      ∀ s2 b2,
        IsLeastSquaresFit (finitePairs 0 [some 0, some 2, some 8]) s2 b2 →
          s2 = s :=
  (calc_slope_spec [some 0, some 2, some 8]).2 (by decide)

/-! ### Delegation baselines: what a direct, unguarded call of the external
fit on the raw data would do. -/

/-- Degree-1 `np.polyfit` applied directly to the raw series: float NaN
propagation makes the least-squares computation yield NaN as soon as any
entry of `y` is NaN. -/
def polyfitSlopeRaw (y : Series) : Option ℚ :=
  if y.any Option.isNone then none
  else some (polyfitSlope (finitePairs 0 y))

/-- Degree-1 `np.polyfit` as the fallible library call it is: numpy raises
`TypeError: expected non-empty vector for x` on an empty x-vector. -/
def polyfitChecked (pts : List (ℚ × ℚ)) : Except String ℚ :=
  if pts.isEmpty then Except.error "expected non-empty vector for x"
  else Except.ok (polyfitSlope pts)

/-- `calc_slope` without its repository-authored guard: the NaN-filtered
values go straight to the library fit and the library's exception
propagates. -/
def calc_slope_unguarded (y : Series) : Except String ℚ :=
  polyfitChecked (finitePairs 0 y)

/-- Counterexample to claim C1: on the series `[0, NaN, 4]` the
repository-defined `calc_slope` computes the slope `2` of the finite entries,
while the computation delegated entirely to the external fit propagates NaN;
so `calc_slope` is not a pure delegation but repository-authored algorithmic
logic. -/
theorem calc_slope_not_delegation :
    calc_slope [some 0, none, some 4] = some 2 ∧
    polyfitSlopeRaw [some 0, none, some 4] = none ∧
    calc_slope [some 0, none, some 4] ≠
      polyfitSlopeRaw [some 0, none, some 4] := by
  have h1 : calc_slope [some 0, none, some 4] = some 2 := by
    norm_num [calc_slope, countFinite, finitePairs, polyfitSlope, sumX, sumY,
      sumXX, sumXY, List.filter]
  have h2 : polyfitSlopeRaw [some 0, none, some 4] = none := by
    simp [polyfitSlopeRaw]
  refine ⟨h1, h2, ?_⟩
  rw [h1, h2]
  simp

/-- Counterexample to claim C3: on an all-NaN series the unguarded library
call raises, but `calc_slope`'s repository-authored guard substitutes the
fallback value NaN instead of letting the exception propagate. -/
theorem calc_slope_fallback_on_all_nan :
    calc_slope [none, none, none] = none ∧
    calc_slope_unguarded [none, none, none] =
      Except.error "expected non-empty vector for x" := by
  exact ⟨rfl, rfl⟩

/-- Claim C3 (amended): outside the fewer-than-two-finite-values guard,
`calc_slope` returns exactly what the library fit returns on the filtered
data — the guard is the only repository-authored substitution. -/
theorem calc_slope_passthrough (y : Series) (h2 : 2 ≤ countFinite y) :
    calc_slope_unguarded y = Except.ok (polyfitSlope (finitePairs 0 y)) ∧
    calc_slope y = some (polyfitSlope (finitePairs 0 y)) := by
  have hlen : 2 ≤ (finitePairs 0 y).length := by
    rw [length_finitePairs]; exact h2
  have hne : ¬ (finitePairs 0 y).isEmpty := by
    rcases exists_cons_cons_of_two_le _ hlen with ⟨p, q, rest, hval⟩
    simp [hval]
  constructor
  · simp [calc_slope_unguarded, polyfitChecked, hne]
  · simp [calc_slope, not_lt.2 h2]

/-- Witness for the amended C3 at the series `[1, 2]`. -/
theorem calc_slope_passthrough_witness :
    calc_slope_unguarded [some 1, some 2] =
      Except.ok (polyfitSlope (finitePairs 0 [some 1, some 2])) ∧
    calc_slope [some 1, some 2] =
      some (polyfitSlope (finitePairs 0 [some 1, some 2])) :=
  calc_slope_passthrough [some 1, some 2] (by decide)

/-- The two call sites at which cesm-lens.ipynb invokes `linear_trend`: once
on the model winter seasons and once on the observational winter seasons. -/
def linearTrendCallSites : List String :=
  ["winter_seasons (model ensemble)", "obs_winter_seasons (observations)"]

/-- Counterexample to claim C6: the linear-trend operation of the notebook is
not a direct single-use inline invocation of external-library functionality:
it goes through the repository-defined `linear_trend`/`calc_slope`, which on
the grid `[[1, NaN, 5]]` produces a different result from the direct library
fit, and it is invoked at two call sites. -/
theorem linear_trend_not_direct_single_use :
    linear_trend [[some 1, none, some 5]] = [some 2] ∧
    [[some 1, none, some 5]].map polyfitSlopeRaw = [none] ∧
    linear_trend [[some 1, none, some 5]] ≠
      [[some 1, none, some 5]].map polyfitSlopeRaw ∧
    linearTrendCallSites.length = 2 := by
  have h1 : linear_trend [[some 1, none, some 5]] = [some 2] := by
    norm_num [linear_trend, calc_slope, countFinite, finitePairs, polyfitSlope,
      sumX, sumY, sumXX, sumXY, List.filter]
  have h2 : [[some 1, none, some 5]].map polyfitSlopeRaw = [none] := by
    simp [polyfitSlopeRaw]
  refine ⟨h1, h2, ?_, rfl⟩
  rw [h1, h2]
  simp

/-- Claim C6 (amended): `linear_trend` is the vectorized application of the
repository-defined `calc_slope` to every series of the grid (the semantics of
`xr.apply_ufunc(…, vectorize=True)`). -/
theorem linear_trend_vectorizes (g : List Series) (i : ℕ) :
    (linear_trend g)[i]? = (g[i]?).map calc_slope := by
  simp [linear_trend]

/-! ### `weighted_temporal_mean` (cesm-lens.ipynb)

The observational dataset is modelled by its time records (year, time bounds,
gridded `air` field over a fixed finite list of flattened spatial cells).
NaN is `none`; `np.testing.assert_allclose` raising `AssertionError` is
modelled by `Except.error`. -/

/-- One time step of the observational dataset: its calendar year, the two
entries of `time_bnds` for the step, and the `air` field at each spatial
cell (`none` is a missing value). -/
structure TimeRec where
  year : ℤ
  bndLo : ℚ
  bndHi : ℚ
  air : ℕ → Option ℚ

/-- The observational dataset: time records plus the flattened list of
(lat, lon) cells. -/
structure ObsDS where
  recs : List TimeRec
  cells : List ℕ

/-- `ds.time_bnds.diff(dim="nbnds")[:, 0]` at one time step. -/
def timeBoundDiff (r : TimeRec) : ℚ := r.bndHi - r.bndLo

/-- The calendar years of `ds`, in order of first appearance: the group keys
of `groupby("time.year")` and of `resample(time="AS")` on monthly data. -/
def yearsOf (ds : ObsDS) : List ℤ := (ds.recs.map TimeRec.year).dedup

/-- The time records of one calendar-year group. -/
def yearRecs (ds : ObsDS) (y : ℤ) : List TimeRec :=
  ds.recs.filter fun r => r.year == y

/-- `time_bound_diff.groupby("time.year").sum(xr.ALL_DIMS)` at year `y`. -/
def yearDiffSum (ds : ObsDS) (y : ℤ) : ℚ :=
  ((yearRecs ds y).map timeBoundDiff).sum

/-- `wgts`: each step's time-bound difference divided by the sum over its
calendar year. -/
def wgt (ds : ObsDS) (r : TimeRec) : ℚ :=
  timeBoundDiff r / yearDiffSum ds r.year

/-- `wgts.groupby("time.year").sum(xr.ALL_DIMS)` at year `y`. -/
def yearWgtSum (ds : ObsDS) (y : ℤ) : ℚ :=
  ((yearRecs ds y).map (wgt ds)).sum

/-- `(obs * wgts).resample(time="AS").sum(dim="time")` at year `y` and cell
`j`; missing entries are skipped (xarray sums with `skipna=True`). -/
def obsSum (ds : ObsDS) (y : ℤ) (j : ℕ) : ℚ :=
  ((yearRecs ds y).map fun r =>
    match r.air j with
    | some v => v * wgt ds r
    | none => 0).sum

/-- `(ones * wgts).resample(time="AS").sum(dim="time")` at year `y` and cell
`j`, where `ones = xr.where(obs.isnull(), 0.0, 1.0)`: the summed weights of
the non-missing entries. -/
def onesOut (ds : ObsDS) (y : ℤ) (j : ℕ) : ℚ :=
  ((yearRecs ds y).map fun r =>
    match r.air j with
    | some _ => wgt ds r
    | none => 0).sum

/-- `obs_sum / ones_out` at one cell; `none` models the NaN produced by
`0.0/0.0` when every entry of the year is missing at the cell. -/
def cellVal (ds : ObsDS) (y : ℤ) (j : ℕ) : Option ℚ :=
  if onesOut ds y j = 0 then none else some (obsSum ds y j / onesOut ds y j)

/-- `.mean(("lat", "lon"))` of the per-cell yearly values, skipping missing
cells. -/
def yearMean (ds : ObsDS) (y : ℤ) : Option ℚ :=
  let vs := ds.cells.filterMap (cellVal ds y)
  if vs.length = 0 then none else some (vs.sum / (vs.length : ℚ))

/-- `weighted_temporal_mean` from cesm-lens.ipynb: normalise the time-bound
differences into per-year weights, check — as the repository-authored
`np.testing.assert_allclose` does — that they sum to 1 over each calendar
year, then return the missing-data-aware weighted annual mean of `air`
averaged over the spatial cells. -/
def weighted_temporal_mean (ds : ObsDS) :
    Except String (List (ℤ × Option ℚ)) :=
  if (yearsOf ds).all fun y => decide (yearWgtSum ds y = 1) then
    Except.ok ((yearsOf ds).map fun y => (y, yearMean ds y))
  else Except.error "assert_allclose: wgts year sums differ from 1.0"

lemma yearRecs_year_eq (ds : ObsDS) (y : ℤ) :
    ∀ r ∈ yearRecs ds y, r.year = y := by
  intro r hr
  have h := (List.mem_filter.1 hr).2
  simpa using h

lemma yearRecs_subset (ds : ObsDS) (y : ℤ) :
    ∀ r ∈ yearRecs ds y, r ∈ ds.recs := by
  intro r hr
  exact (List.mem_filter.1 hr).1

/-- The per-year weight sum is always the year's diff sum divided by
itself. -/
lemma yearWgtSum_eq (ds : ObsDS) (y : ℤ) :
    yearWgtSum ds y = yearDiffSum ds y / yearDiffSum ds y := by
  unfold yearWgtSum
  have hcong : (yearRecs ds y).map (wgt ds) =
      (yearRecs ds y).map fun r => timeBoundDiff r / yearDiffSum ds y := by
    apply List.map_congr_left
    intro r hr
    rw [wgt, yearRecs_year_eq ds y r hr]
  rw [hcong]
  have : ((yearRecs ds y).map fun r =>
      timeBoundDiff r * (yearDiffSum ds y)⁻¹).sum =
      ((yearRecs ds y).map timeBoundDiff).sum * (yearDiffSum ds y)⁻¹ :=
    List.sum_map_mul_right _ _ _
  simpa [div_eq_mul_inv, yearDiffSum] using this

lemma yearWgtSum_eq_one_iff (ds : ObsDS) (y : ℤ) :
    yearWgtSum ds y = 1 ↔ yearDiffSum ds y ≠ 0 := by
  rw [yearWgtSum_eq]
  constructor
  · intro h hS
    rw [hS] at h
    norm_num at h
  · intro hS
    exact div_self hS

lemma mem_yearsOf_exists (ds : ObsDS) (y : ℤ) (hy : y ∈ yearsOf ds) :
    ∃ r ∈ ds.recs, r.year = y := by
  have h := List.mem_dedup.1 hy
  rcases List.mem_map.1 h with ⟨r, hr, hval⟩
  exact ⟨r, hr, hval⟩

lemma yearDiffSum_pos (ds : ObsDS)
    (hpos : ∀ r ∈ ds.recs, 0 < timeBoundDiff r) (y : ℤ)
    (hy : y ∈ yearsOf ds) : 0 < yearDiffSum ds y := by
  rcases mem_yearsOf_exists ds y hy with ⟨r, hr, hval⟩
  have hrmem : r ∈ yearRecs ds y :=
    List.mem_filter.2 ⟨hr, by simp [hval]⟩
  apply List.sum_pos
  · intro d hd
    rcases List.mem_map.1 hd with ⟨s, hs, hval2⟩
    rw [← hval2]
    exact hpos s (yearRecs_subset ds y s hs)
  · exact fun h => (List.ne_nil_of_mem (List.mem_map_of_mem timeBoundDiff
      hrmem)) (by rw [h])

/-- Claim C9: on every dataset whose time-bound differences are positive, the
normalised weights sum to exactly 1 over each calendar year, so the
repository's `assert_allclose` check holds and `weighted_temporal_mean` does
not raise. -/
theorem wgts_sum_to_one (ds : ObsDS)
    (hpos : ∀ r ∈ ds.recs, 0 < timeBoundDiff r) :
    (∀ y ∈ yearsOf ds, yearWgtSum ds y = 1) ∧
    ∃ res, weighted_temporal_mean ds = Except.ok res := by
  have hone : ∀ y ∈ yearsOf ds, yearWgtSum ds y = 1 := by
    intro y hy
    exact (yearWgtSum_eq_one_iff ds y).2
      (ne_of_gt (yearDiffSum_pos ds hpos y hy))
  have hall : ((yearsOf ds).all fun y => decide (yearWgtSum ds y = 1)) = true := by
    rw [List.all_eq_true]
    intro y hy
    exact decide_eq_true (hone y hy)
  refine ⟨hone, ⟨(yearsOf ds).map fun y => (y, yearMean ds y), ?_⟩⟩
  rw [weighted_temporal_mean, if_pos hall]

/-- Witness for C9: a two-step dataset over one calendar year with positive
time-bound differences. -/
theorem wgts_sum_to_one_witness :
    (∀ y ∈ yearsOf ⟨[⟨2000, 0, 1, fun _ => some 3⟩,
        ⟨2000, 1, 3, fun _ => some 5⟩], [0]⟩, yearWgtSum ⟨[⟨2000, 0, 1,
        fun _ => some 3⟩, ⟨2000, 1, 3, fun _ => some 5⟩], [0]⟩ y = 1) ∧
    ∃ res, weighted_temporal_mean ⟨[⟨2000, 0, 1, fun _ => some 3⟩,
        ⟨2000, 1, 3, fun _ => some 5⟩], [0]⟩ = Except.ok res :=
  wgts_sum_to_one _ (by
    intro r hr
    have h2 : r = (⟨2000, 0, 1, fun _ => some 3⟩ : TimeRec) ∨
        r = (⟨2000, 1, 3, fun _ => some 5⟩ : TimeRec) := by simpa using hr
    rcases h2 with rfl | rfl <;> norm_num [timeBoundDiff])

/-- Counterexample to claim C2: executing `weighted_temporal_mean` on a
one-step dataset with degenerate (equal) time bounds evaluates the
repository-authored `assert_allclose` invariant check, and the check fires:
the run raises instead of returning, which no notebook free of
repository-authored assertions could do. -/
theorem wtm_assert_fires :
    weighted_temporal_mean ⟨[⟨2000, 0, 0, fun _ => some 1⟩], [0]⟩ =
      Except.error "assert_allclose: wgts year sums differ from 1.0" := by
  have hc : ((yearsOf ⟨[⟨2000, 0, 0, fun _ => some 1⟩], [0]⟩).all fun y =>
      decide (yearWgtSum ⟨[⟨2000, 0, 0, fun _ => some 1⟩], [0]⟩ y = 1)) =
      false := by
    norm_num [yearsOf, yearWgtSum, yearRecs, wgt, timeBoundDiff, yearDiffSum,
      List.dedup]
  rw [weighted_temporal_mean, hc]
  rfl

/-- Claim C2 (amended): the notebooks do author two runtime checks (the
`assert_allclose` inside `weighted_temporal_mean` and the winter-season count
assert); every run of `weighted_temporal_mean` evaluates the former, and the
run returns normally precisely when no calendar year's time-bound differences
sum to zero. -/
theorem wtm_ok_iff (ds : ObsDS) :
    (∃ res, weighted_temporal_mean ds = Except.ok res) ↔
      ∀ y ∈ yearsOf ds, yearDiffSum ds y ≠ 0 := by
  have hbool : ((yearsOf ds).all fun y => decide (yearWgtSum ds y = 1)) =
      true ↔ ∀ y ∈ yearsOf ds, yearDiffSum ds y ≠ 0 := by
    rw [List.all_eq_true]
    constructor
    · intro h y hy
      exact (yearWgtSum_eq_one_iff ds y).1 (of_decide_eq_true (h y hy))
    · intro h y hy
      exact decide_eq_true ((yearWgtSum_eq_one_iff ds y).2 (h y hy))
  constructor
  · rintro ⟨res, hres⟩
    rw [weighted_temporal_mean] at hres
    by_cases hb : ((yearsOf ds).all fun y => decide (yearWgtSum ds y = 1)) =
        true
    · exact hbool.1 hb
    · rw [if_neg hb] at hres
      cases hres
  · intro h
    refine ⟨(yearsOf ds).map fun y => (y, yearMean ds y), ?_⟩
    rw [weighted_temporal_mean, if_pos (hbool.2 h)]

/-- Witness for the amended C2: a dataset (with a missing-valued `air` field)
whose single year has a nonzero diff sum, on which the run returns
normally. -/
theorem wtm_ok_iff_witness :
    ∃ res, weighted_temporal_mean ⟨[⟨1999, 0, 2, fun _ => none⟩], [0, 1]⟩ =
      Except.ok res :=
  (wtm_ok_iff _).2 (by
    intro y hy
    have hy2 : y = 1999 := by
      simpa [yearsOf, List.dedup] using hy
    subst hy2
    norm_num [yearDiffSum, yearRecs, timeBoundDiff])

lemma filterMap_const_some {l : List ℕ} {f : ℕ → Option ℚ} {c : ℚ}
    (h : ∀ j ∈ l, f j = some c) :
    l.filterMap f = List.replicate l.length c := by
  induction l with
  | nil => simp
  | cons a l ih =>
    rw [List.filterMap_cons, h a (by simp)]
    simp only [List.length_cons, List.replicate_succ]
    rw [ih fun j hj => h j (by simp [hj])]

/-- Claim C1 (amended): the repository does author algorithms of its own.
`weighted_temporal_mean` is a missing-data-aware, time-length-weighted annual
mean with real semantic content: on any dataset with positive time-bound
differences whose `air` field is constantly `c` on the cells, it returns the
annual mean `c` for every calendar year. (`calc_slope`'s original NaN logic
is the subject of the accompanying counterexample.) -/
theorem wtm_of_constant (ds : ObsDS) (c : ℚ)
    (hpos : ∀ r ∈ ds.recs, 0 < timeBoundDiff r)
    (hcells : ds.cells ≠ [])
    (hair : ∀ r ∈ ds.recs, ∀ j ∈ ds.cells, r.air j = some c) :
    weighted_temporal_mean ds =
      Except.ok ((yearsOf ds).map fun y => (y, some c)) := by
  have hone : ∀ y ∈ yearsOf ds, yearWgtSum ds y = 1 := fun y hy =>
    (yearWgtSum_eq_one_iff ds y).2 (ne_of_gt (yearDiffSum_pos ds hpos y hy))
  have hall : ((yearsOf ds).all fun y => decide (yearWgtSum ds y = 1)) =
      true := by
    rw [List.all_eq_true]
    intro y hy
    exact decide_eq_true (hone y hy)
  rw [weighted_temporal_mean, if_pos hall]
  congr 1
  apply List.map_congr_left
  intro y hy
  have hcell : ∀ j ∈ ds.cells, cellVal ds y j = some c := by
    intro j hj
    have hobs : obsSum ds y j = c * yearWgtSum ds y := by
      unfold obsSum
      rw [show ((yearRecs ds y).map fun r =>
          match r.air j with
          | some v => v * wgt ds r
          | none => 0) = (yearRecs ds y).map fun r => c * wgt ds r from
        List.map_congr_left fun r hr => by
          rw [hair r (yearRecs_subset ds y r hr) j hj]]
      exact List.sum_map_mul_left _ _ _
    have hones : onesOut ds y j = yearWgtSum ds y := by
      unfold onesOut yearWgtSum
      exact congrArg List.sum (List.map_congr_left fun r hr => by
        rw [hair r (yearRecs_subset ds y r hr) j hj])
    rw [cellVal, hones, hone y hy, hobs, hone y hy]
    norm_num
  have hfm : ds.cells.filterMap (cellVal ds y) =
      List.replicate ds.cells.length c := filterMap_const_some hcell
  have hlen : ds.cells.length ≠ 0 := fun h =>
    hcells (List.length_eq_zero.1 h)
  rw [yearMean]
  simp only [hfm, List.length_replicate, List.sum_replicate, if_neg hlen,
    nsmul_eq_mul]
  have hn : (ds.cells.length : ℚ) ≠ 0 := by exact_mod_cast hlen
  rw [mul_comm, mul_div_assoc, div_self hn, mul_one]

/-- Witness for the amended C1: a two-year constant dataset with two spatial
cells. -/
theorem wtm_of_constant_witness :
    weighted_temporal_mean ⟨[⟨2001, 0, 1, fun _ => some 7⟩,
        ⟨2002, 2, 4, fun _ => some 7⟩], [0, 1]⟩ =
      Except.ok ((yearsOf ⟨[⟨2001, 0, 1, fun _ => some 7⟩,
        ⟨2002, 2, 4, fun _ => some 7⟩], [0, 1]⟩).map fun y => (y, some 7)) :=
  wtm_of_constant _ 7
    (by
      intro r hr
      have h2 : r = (⟨2001, 0, 1, fun _ => some 7⟩ : TimeRec) ∨
          r = (⟨2002, 2, 4, fun _ => some 7⟩ : TimeRec) := by simpa using hr
      rcases h2 with rfl | rfl <;> norm_num [timeBoundDiff])
    (by simp)
    (by
      intro r hr j hj
      have h2 : r = (⟨2001, 0, 1, fun _ => some 7⟩ : TimeRec) ∨
          r = (⟨2002, 2, 4, fun _ => some 7⟩ : TimeRec) := by simpa using hr
      rcases h2 with rfl | rfl <;> rfl)

/-! ### The lazy weighted annual-mean pipeline (cesm-lens.ipynb)

`t_20c_ts = (t_20c.resample(time="AS").mean("time") * cell_area)
.sum(dim=("lat","lon")) / total_area` builds a deferred expression; only the
subsequent `.load()` materialises it.  The deferred-evaluation engine lives
in the external libraries, not in this repository; it is modelled from the
spec: the graph is an inert expression tree, and evaluation happens only when
`load` walks it.  The eager semantics is written independently, directly from
the claim's description of the pipeline. -/

/-- One time step of the model temperature field: its calendar year and the
temperature at each flattened (lat, lon) cell. -/
structure TStep where
  year : ℤ
  vals : ℕ → ℚ

/-- The data a materialisation runs on: the time steps, the flattened cell
list, and the cell areas (`cell_area`). -/
structure GridEnv where
  steps : List TStep
  cellIds : List ℕ
  area : ℕ → ℚ

/-- Deferred grid-valued expressions: the task graph built by the notebook's
grid operations.  Construction allocates a node and evaluates nothing. -/
inductive GridExpr : Type
  | src : GridExpr
  | resampleMean : GridExpr → GridExpr
  | mulArea : GridExpr → GridExpr

/-- Deferred time-series-valued expressions. -/
inductive SeriesExpr : Type
  | sumLatLon : GridExpr → SeriesExpr
  | divTotal : SeriesExpr → SeriesExpr

/-- The deferred expression the notebook builds for the weighted annual-mean
temperature series: resample to annual means, multiply by the cell area, sum
over lat/lon, divide by the total area.  A closed tree: no dataset is read to
form it. -/
def t_ts_expr : SeriesExpr :=
  SeriesExpr.divTotal (SeriesExpr.sumLatLon
    (GridExpr.mulArea (GridExpr.resampleMean GridExpr.src)))

/-- The calendar years of the steps, in order of first appearance: the group
keys of `resample(time="AS")`. -/
def stepYears (env : GridEnv) : List ℤ := (env.steps.map TStep.year).dedup

/-- The time steps of calendar year `y`. -/
def stepsOfYear (env : GridEnv) (y : ℤ) : List TStep :=
  env.steps.filter fun s => s.year == y

/-- `total_area = cell_area.sum()`. -/
def totalArea (env : GridEnv) : ℚ := (env.cellIds.map env.area).sum

/-- Evaluation of a deferred grid expression: each node is the corresponding
eager array operation of the external library. -/
def evalGrid (env : GridEnv) : GridExpr → List (ℤ × (ℕ → ℚ))
  | GridExpr.src => env.steps.map fun s => (s.year, s.vals)
  | GridExpr.resampleMean e =>
      let g := evalGrid env e
      ((g.map Prod.fst).dedup).map fun y =>
        (y, fun j => ((g.filter fun p => p.1 == y).map fun p => p.2 j).sum /
          (((g.filter fun p => p.1 == y).length : ℚ)))
  | GridExpr.mulArea e =>
      (evalGrid env e).map fun p => (p.1, fun j => p.2 j * env.area j)

/-- Evaluation of a deferred series expression. -/
def evalSeries (env : GridEnv) : SeriesExpr → List (ℤ × ℚ)
  | SeriesExpr.sumLatLon e => (evalGrid env e).map fun p =>
      (p.1, (env.cellIds.map fun j => p.2 j).sum)
  | SeriesExpr.divTotal e => (evalSeries env e).map fun p =>
      (p.1, p.2 / totalArea env)

/-- `.load()`: the explicit materialisation call, the only place the deferred
graph is evaluated. -/
def loadSeries (e : SeriesExpr) (env : GridEnv) : List (ℤ × ℚ) :=
  evalSeries env e

/-- The annual mean of the temperature at cell `j` over the steps of calendar
year `y`. -/
def annualMeanAt (env : GridEnv) (y : ℤ) (j : ℕ) : ℚ :=
  ((stepsOfYear env y).map fun s => s.vals j).sum /
    ((stepsOfYear env y).length : ℚ)

/-- Modelled from the spec: the value the claim describes, computed eagerly
in one formula — for each calendar year, the area-weighted sum of the
annual-mean field over the cells, divided by the total area. -/
def eagerWeightedAnnualMean (env : GridEnv) : List (ℤ × ℚ) :=
  (stepYears env).map fun y =>
    (y, (env.cellIds.map fun j => annualMeanAt env y j * env.area j).sum /
      totalArea env)

/-- Claim C5: materialising the deferred weighted annual-mean pipeline with
`.load()` produces, on every input dataset, exactly the eagerly computed
weighted annual-mean series; the pipeline itself (`t_ts_expr`) is a closed
expression tree whose construction evaluates nothing. -/
theorem load_t_ts_eq_eager (env : GridEnv) :
    loadSeries t_ts_expr env = eagerWeightedAnnualMean env := by
  unfold loadSeries t_ts_expr eagerWeightedAnnualMean
  simp only [evalSeries, evalGrid]
  have hyears :
      ((env.steps.map fun s => (s.year, s.vals)).map Prod.fst).dedup =
        stepYears env := by
    rw [List.map_map]
    rfl
  have hfilter : ∀ y : ℤ,
      (env.steps.map fun s => (s.year, s.vals)).filter
          (fun p => p.1 == y) =
        (stepsOfYear env y).map fun s => (s.year, s.vals) := by
    intro y
    rw [List.filter_map]
    rfl
  rw [hyears]
  simp only [List.map_map]
  apply List.map_congr_left
  intro y _
  simp only [Function.comp]
  congr 1
  rw [hfilter y]
  simp only [List.map_map, List.length_map, annualMeanAt]
  rfl

/-! ### Cluster interaction trace (cesm-lens.ipynb)

The notebook's interactions with the distributed cluster, in program order.
The constructor repertoire is the external scheduler's client API surface,
including the concurrency primitives and cancellation calls the library
offers but the notebook never uses. -/

/-- The operations of the external distributed-computing client API. -/
inductive ClusterOp : Type
  | create : ClusterOp
  | adapt : ℕ → ℕ → ℕ → ClusterOp
  | connect : ClusterOp
  | computeBlocking : String → ClusterOp
  | closeClient : ClusterOp
  | closeCluster : ClusterOp
  | cancel : String → ClusterOp
  | lock : String → ClusterOp
  | barrier : ClusterOp
deriving DecidableEq

/-- The cesm-lens notebook's cluster-interaction trace, in program order:
`KubeCluster()`, `cluster.adapt(minimum=2, maximum=25, wait_count=60)`,
`Client(cluster)`, the blocking materialisations, then `client.close()` and
`cluster.close()`. -/
def cesmClusterOps : List ClusterOp :=
  [ClusterOp.create, ClusterOp.adapt 2 25 60, ClusterOp.connect,
   ClusterOp.computeBlocking "t_ref_ts.load",
   ClusterOp.computeBlocking "t_20c_ts.to_series",
   ClusterOp.computeBlocking "t_rcp_ts.to_series",
   ClusterOp.computeBlocking "seasons.load",
   ClusterOp.computeBlocking "winter_trends.load",
   ClusterOp.computeBlocking "obs_winter_trends.load",
   ClusterOp.closeClient, ClusterOp.closeCluster]

/-- An operation that only configures the autoscaler's worker bounds. -/
def isAdaptConfig : ClusterOp → Bool
  | ClusterOp.adapt _ _ _ => true
  | _ => false

/-- A blocking materialisation call. -/
def isBlockingCompute : ClusterOp → Bool
  | ClusterOp.computeBlocking _ => true
  | _ => false

/-- A concurrency or ordering primitive of the scheduler API. -/
def isConcurrencyPrimitive : ClusterOp → Bool
  | ClusterOp.lock _ => true
  | ClusterOp.barrier => true
  | _ => false

/-- A cancellation call of the scheduler API. -/
def isCancellation : ClusterOp → Bool
  | ClusterOp.cancel _ => true
  | _ => false

/-- Counterexample to claim C7: the notebook's cluster trace contains an
operation — closing the cluster (and likewise creating it and connecting the
client) — that is neither a worker-count configuration nor a blocking
compute call, so those two kinds are not the repository's only cluster
interactions. -/
theorem cluster_ops_beyond_adapt_and_compute :
    ClusterOp.closeCluster ∈ cesmClusterOps ∧
    isAdaptConfig ClusterOp.closeCluster = false ∧
    isBlockingCompute ClusterOp.closeCluster = false := by
  refine ⟨by simp [cesmClusterOps], rfl, rfl⟩

/-- Claim C7 (amended): the repository's cluster interactions are cluster
creation, autoscaling configuration, client connection, blocking compute
calls, and graceful close; the trace contains no concurrency primitive,
ordering primitive, or cancellation call. -/
theorem cluster_ops_no_concurrency :
    ∀ op ∈ cesmClusterOps,
      isConcurrencyPrimitive op = false ∧ isCancellation op = false := by
  intro op hop
  fin_cases hop <;> exact ⟨rfl, rfl⟩

/-- Witness for the amended C7 at the trace's first operation. -/
theorem cluster_ops_no_concurrency_witness :
    isConcurrencyPrimitive ClusterOp.create = false ∧
    isCancellation ClusterOp.create = false :=
  cluster_ops_no_concurrency ClusterOp.create (by simp [cesmClusterOps])

/-! ### External input boundary (both notebooks) -/

/-- The channels through which the notebooks touch the outside world. -/
inductive Channel : Type
  | arrayFile : Channel
  | catalogFile : Channel
  | objectStore : Channel
  | clusterApi : Channel
  | plotOutput : Channel
  | httpTextIndex : Channel
deriving DecidableEq

/-- Membership in the spec's five-channel enumeration: (a) local/remote
array-format files, (b) JSON/YAML dataset catalogs, (c) cloud object store,
(d) cluster-provisioning API, (e) plotting figure output. -/
def listedChannel : Channel → Bool
  | Channel.arrayFile => true
  | Channel.catalogFile => true
  | Channel.objectStore => true
  | Channel.clusterApi => true
  | Channel.plotOutput => true
  | Channel.httpTextIndex => false

/-- The notebooks' external interactions: each entry is a source location and
the channel it uses. -/
def notebookBoundary : List (String × Channel) :=
  [("cesm-lens: intake.open_esm_datastore aws-cesm1-le.json",
      Channel.catalogFile),
   ("cesm-lens: col_subset.to_dataset_dict zarr on s3", Channel.objectStore),
   ("cesm-lens: KubeCluster, adapt, Client", Channel.clusterApi),
   ("cesm-lens: intake.Catalog catalog.yml", Channel.catalogFile),
   ("cesm-lens: cat.HadCRUT4.to_dask", Channel.arrayFile),
   ("cesm-lens: cat.gistemp.read", Channel.arrayFile),
   ("cesm-lens: matplotlib and cartopy figures", Channel.plotOutput),
   ("xarray: get_sst_data download", Channel.arrayFile),
   ("xarray: xr.open_dataset NOAA_NCDC_ERSST nc", Channel.arrayFile),
   ("xarray: xr.open_mfdataset sst nc files", Channel.arrayFile),
   ("xarray: plots", Channel.plotOutput),
   ("xarray: pd.read_csv cpc.ncep.noaa.gov sstoi.indices",
      Channel.httpTextIndex)]

/-- Counterexample to claim C8: xarray.ipynb additionally reads a
whitespace-separated text climate-index file over HTTP with `pd.read_csv`, an
external input channel outside the five listed boundaries. -/
theorem boundary_beyond_listed :
    ("xarray: pd.read_csv cpc.ncep.noaa.gov sstoi.indices",
      Channel.httpTextIndex) ∈ notebookBoundary ∧
    listedChannel Channel.httpTextIndex = false := by
  refine ⟨by simp [notebookBoundary], rfl⟩

/-- Claim C8 (amended): every external interaction of the notebooks uses one
of the five listed channels or the HTTP text-index channel of the NOAA
NINO3.4 read. -/
theorem boundary_channels (p : String × Channel)
    (hp : p ∈ notebookBoundary) :
    listedChannel p.2 = true ∨ p.2 = Channel.httpTextIndex := by
  fin_cases hp <;> simp [listedChannel]

/-- Witness for the amended C8 at the boundary's first entry. -/
theorem boundary_channels_witness :
    listedChannel ("cesm-lens: intake.open_esm_datastore aws-cesm1-le.json",
      Channel.catalogFile).2 = true ∨
    ("cesm-lens: intake.open_esm_datastore aws-cesm1-le.json",
      Channel.catalogFile).2 = Channel.httpTextIndex :=
  boundary_channels _ (by simp [notebookBoundary])

/-! ### Longitude remap (cesm-lens.ipynb):
`ds = ds.assign_coords(lon=((ds.lon + 360) % 360)).sortby('lon')` -/

/-- Python's float modulo with positive divisor:
`a % m = a - m * floor(a / m)`. -/
def pymod (a m : ℚ) : ℚ := a - m * ⌊a / m⌋

/-- `assign_coords(lon=((ds.lon + 360) % 360))` on a dataset viewed along its
longitude axis: remap every longitude coordinate, keep every data slab. -/
def assignLon360 {α : Type} (ds : List (ℚ × α)) : List (ℚ × α) :=
  ds.map fun p => (pymod (p.1 + 360) 360, p.2)

/-- Comparison of slabs by longitude coordinate. -/
def lonLE {α : Type} (p q : ℚ × α) : Prop := p.1 ≤ q.1

instance {α : Type} : DecidableRel (@lonLE α) :=
  fun p q => inferInstanceAs (Decidable (p.1 ≤ q.1))

instance {α : Type} : IsTotal (ℚ × α) lonLE :=
  ⟨fun p q => le_total p.1 q.1⟩

instance {α : Type} : IsTrans (ℚ × α) lonLE :=
  ⟨fun _ _ _ h1 h2 => le_trans h1 h2⟩

/-- `sortby(lon)`: stable sort of the slabs by longitude coordinate. -/
def sortByLon {α : Type} (ds : List (ℚ × α)) : List (ℚ × α) :=
  ds.insertionSort lonLE

/-- The notebook's longitude remap of the gistemp dataset. -/
def remapLon {α : Type} (ds : List (ℚ × α)) : List (ℚ × α) :=
  sortByLon (assignLon360 ds)

lemma pymod_mem_Ico (a : ℚ) : 0 ≤ pymod a 360 ∧ pymod a 360 < 360 := by
  have h : pymod a 360 = 360 * Int.fract (a / 360) := by
    rw [pymod, Int.fract, mul_sub, mul_div_cancel₀ a (by norm_num : (360 : ℚ) ≠ 0)]
  constructor
  · rw [h]
    have := Int.fract_nonneg (a / 360)
    positivity
  · rw [h]
    have := Int.fract_lt_one (a / 360)
    linarith

/-- Claim C10: on every longitude-indexed dataset with longitudes in
[-180, 180], the remap `assign_coords(lon=((lon + 360) % 360)).sortby(lon)`
sends each longitude into [0, 360), produces a longitude axis sorted in
non-decreasing order, and only permutes the data slabs, preserving their
multiset. -/
theorem remapLon_spec {α : Type} (ds : List (ℚ × α))
    (hrange : ∀ p ∈ ds, -180 ≤ p.1 ∧ p.1 ≤ 180) :
    (∀ p ∈ remapLon ds, 0 ≤ p.1 ∧ p.1 < 360) ∧
    List.Sorted lonLE (remapLon ds) ∧
    ((remapLon ds).map Prod.snd).Perm (ds.map Prod.snd) := by
  refine ⟨?_, ?_, ?_⟩
  · intro p hp
    have hp2 : p ∈ assignLon360 ds :=
      (List.perm_insertionSort lonLE (assignLon360 ds)).mem_iff.1 hp
    rcases List.mem_map.1 hp2 with ⟨q, _, rfl⟩
    exact pymod_mem_Ico (q.1 + 360)
  · exact List.sorted_insertionSort lonLE (assignLon360 ds)
  · have h1 : ((remapLon ds).map Prod.snd).Perm
        ((assignLon360 ds).map Prod.snd) :=
      (List.perm_insertionSort lonLE (assignLon360 ds)).map Prod.snd
    have h2 : (assignLon360 ds).map Prod.snd = ds.map Prod.snd := by
      rw [assignLon360, List.map_map]
      rfl
    rw [h2] at h1
    exact h1

/-- Witness for C10 at the three-slab dataset with longitudes
−180, 180, −1. -/
theorem remapLon_spec_witness :
    (∀ p ∈ remapLon [((-180 : ℚ), (0 : ℕ)), (180, 1), (-1, 2)],
      0 ≤ p.1 ∧ p.1 < 360) ∧
    List.Sorted lonLE (remapLon [((-180 : ℚ), (0 : ℕ)), (180, 1), (-1, 2)]) ∧
    ((remapLon [((-180 : ℚ), (0 : ℕ)), (180, 1), (-1, 2)]).map
      Prod.snd).Perm ([((-180 : ℚ), (0 : ℕ)), (180, 1), (-1, 2)].map
      Prod.snd) :=
  remapLon_spec _ (by
    intro p hp
    have h2 : p = ((-180 : ℚ), (0 : ℕ)) ∨ p = (180, 1) ∨ p = (-1, 2) := by
      simpa using hp
    rcases h2 with rfl | rfl | rfl <;> norm_num)

end PangeoTutorial
